import Mathlib

/-!
Verification of the raw-data-ingest pipeline (`src/function_app.py`).

The shallow embedding below translates, definition by definition, the pure
core of the pipeline: JSON values produced by `json.loads` (`PyVal`), the
shape classifier (`_is_columnar_dict`), scalar normalization
(`_normalize_columnar`, `_rows_to_columnar`), the columnar merge
(`_merge_columnars`), routing (`resolve_folder_and_table` and its helpers),
the decompression fallback chain (`try_decompress`, with the external codec
library calls as parameters), and the chunked segment emission inside
`eventhub_trigger`.

Python strings are modelled as `List Char` where character-level operations
(regexes, strip, lower) matter, and as `String` where only concatenation
matters (file names).  Python dicts coming from `json.loads` are modelled as
association lists with the insertion order that CPython dicts preserve.
Machine-level behaviour that is not JSON-representable (float formatting) is
modelled by carrying the rendered form of the value.
-/

/-- A normalized cell: string-or-null, exactly the values stored in columns. -/
abbrev Cell := Option String

/-- A column-set: mapping from column name to sequence of cells, in dict
insertion order (CPython dicts preserve insertion order). -/
abbrev Columnar := List (String × List Cell)

/-- A Python value as produced by `json.loads`, plus the two non-JSON shapes
the source inspects: datetime-like objects (anything with `isoformat`,
modelled by the string that call returns) and floats (modelled by their
`str`/`repr` rendering, since numeric formatting is not re-derived here). -/
inductive PyVal where
  | vnull
  | vbool (b : Bool)
  | vint (n : Int)
  | vfloat (rendered : String)
  | vstr (s : String)
  | vlist (xs : List PyVal)
  | vdict (kvs : List (String × PyVal))
  | vdatetime (iso : String)

/-- A row: a Python dict from `json.loads`, keys in insertion order. -/
abbrev Row := List (String × PyVal)

/-- Hex digit as used by `json.dumps` in `\u00XX` escapes (lowercase). -/
def hexDigitChar (n : Nat) : Char :=
  if n < 10 then Char.ofNat (48 + n) else Char.ofNat (87 + n)

/-- Two-digit lowercase hex rendering of a byte. -/
def hexTwo (n : Nat) : String :=
  String.mk [hexDigitChar (n / 16), hexDigitChar (n % 16)]

/-- One character of a JSON string literal as produced by
`json.dumps(..., ensure_ascii=False)`: escape the quote, the backslash and
control characters, keep everything else (including non-ASCII) verbatim. -/
def jsonEscapeChar (c : Char) : String :=
  if c = '"' then "\\\""
  else if c = '\\' then "\\\\"
  else if c = '\n' then "\\n"
  else if c = '\r' then "\\r"
  else if c = '\t' then "\\t"
  else if c = Char.ofNat 8 then "\\b"
  else if c = Char.ofNat 12 then "\\f"
  else if c.toNat < 32 then "\\u00" ++ hexTwo c.toNat
  else String.singleton c

/-- A JSON string literal: quotes around the escaped characters. -/
def jsonQuote (s : String) : String :=
  "\"" ++ String.join (s.toList.map jsonEscapeChar) ++ "\""

mutual

/-- `json.dumps(v, ensure_ascii=False)` with CPython's default separators
(", " between items, ": " after keys).  `vdatetime` never occurs inside a
`json.loads` result, so the branch below is unreachable in the pipeline
(CPython `json.dumps` would raise `TypeError` on it). -/
def dumpsVal : PyVal → String
  | .vnull => "null"
  | .vbool b => if b then "true" else "false"
  | .vint n => toString n
  | .vfloat rendered => rendered
  | .vstr s => jsonQuote s
  | .vlist xs => "[" ++ dumpsArr xs ++ "]"
  | .vdict kvs => "\x7b" ++ dumpsObj kvs ++ "\x7d"
  | .vdatetime iso => jsonQuote iso

/-- Elements of a JSON array, separated by ", ". -/
def dumpsArr : List PyVal → String
  | [] => ""
  | [v] => dumpsVal v
  | v :: vs => dumpsVal v ++ ", " ++ dumpsArr vs

/-- Entries of a JSON object, `"key": value` separated by ", ". -/
def dumpsObj : List (String × PyVal) → String
  | [] => ""
  | [kv] => jsonQuote kv.1 ++ ": " ++ dumpsVal kv.2
  | kv :: rest => jsonQuote kv.1 ++ ": " ++ dumpsVal kv.2 ++ ", " ++ dumpsObj rest

end

/-- Scalar normalization, the shared `if`-chain of `_normalize_columnar` and
`_rows_to_columnar`: dict/list values are JSON-serialized, datetime-like
values are rendered by `isoformat()`, `None` stays null, everything else is
passed through `str`. -/
def normCell : PyVal → Cell
  | .vdict kvs => some (dumpsVal (.vdict kvs))
  | .vlist xs => some (dumpsVal (.vlist xs))
  | .vdatetime iso => some iso
  | .vnull => none
  | .vstr s => some s
  | .vint n => some (toString n)
  | .vbool b => some (if b then "True" else "False")
  | .vfloat rendered => some rendered

/-- Whether a Python value is a `list` (the `isinstance(v, list)` test). -/
def isVList : PyVal → Bool
  | .vlist _ => true
  | _ => false

/-- The length of a value when it is a list (used by the classifier). -/
def vListLen : PyVal → Option Nat
  | .vlist xs => some xs.length
  | _ => none

/-- The loop of `_is_columnar_dict`: walk the dict values, require each to be
a list, accumulate the lengths in a set, and fail as soon as the set holds
more than one length none of which is 0.  The accumulator models the Python
`set` named `lengths`. -/
def isColumnarLoop : List PyVal → Finset Nat → Bool
  | [], _ => true
  | v :: rest, lengths =>
    match v with
    | .vlist xs =>
      let lengths := insert xs.length lengths
      if 1 < lengths.card ∧ 0 ∉ lengths then false
      else isColumnarLoop rest lengths
    | _ => false

/-- `_is_columnar_dict`: non-empty dict whose values survive the loop above. -/
def isColumnarDict (d : List (String × PyVal)) : Bool :=
  !d.isEmpty && isColumnarLoop (d.map (·.2)) ∅

/-- `_normalize_columnar`: normalize every cell of every column.  The source
iterates each value, which is a list for every column the classifier accepted;
a non-list value would make CPython raise while iterating, and never occurs
because the function is only called on classifier-accepted dicts — it is
totalized to an empty column here. -/
def normalizeColumnar (d : List (String × PyVal)) : Columnar :=
  d.map (fun kv =>
    (kv.1, match kv.2 with
           | .vlist xs => xs.map normCell
           | _ => []))

/-- Row count of a columnar fragment: the Python idiom
`next((len(v) for v in d.values()), 0)` — length of the first column, 0 when
there is no column. -/
def fragLen (d : Columnar) : Nat :=
  match d with
  | [] => 0
  | kv :: _ => kv.2.length

/-- Dict lookup `d[k]` / `k in d` on a columnar fragment. -/
def lookupCol (d : Columnar) (k : String) : Option (List Cell) :=
  (d.find? (fun kv => kv.1 == k)).map (·.2)

/-- The `keys` set of `_merge_columnars`: `keys.update(d.keys())` over the
fragments, a Python `set` (unordered), modelled as a `Finset`. -/
def keysUnion (dicts : List Columnar) : Finset String :=
  dicts.foldl (fun acc d => acc ∪ (d.map Prod.fst).toFinset) ∅

/-- `_merge_columnars`, parameterized by `ord`, the order in which CPython
happens to iterate the `keys` set (hash order — a property of the key set,
not of insertion order).  Each output column concatenates, fragment by
fragment, the fragment's own values for that column when present, else a
null run of the fragment's row count. -/
def mergeColumnars (ord : List String) (dicts : List Columnar) : Columnar :=
  if dicts.isEmpty then []
  else
    ord.map (fun k =>
      (k, (dicts.map (fun d =>
            match lookupCol d k with
            | some vs => vs
            | none => List.replicate (fragLen d) (none : Cell))).flatten))

/-- The ordered union of column names in first-seen order across fragments in
the order supplied — the column layout §9 of the spec requires. -/
def firstSeenUnion (dicts : List Columnar) : List String :=
  dicts.foldl (fun acc d =>
    d.foldl (fun a kv => if kv.1 ∈ a then a else a ++ [kv.1]) acc) []

/-- `_flatten_decoded_rows`: a list keeps only its dict entries, a single
dict becomes one row, anything else contributes no rows. -/
def flattenDecodedRows : PyVal → List Row
  | .vlist xs => xs.filterMap (fun v => match v with
      | .vdict kvs => some kvs
      | _ => none)
  | .vdict kvs => [kvs]
  | _ => []

/-- Dict lookup on a row (`r.get(k, None)` returns `None` when absent). -/
def lookupRow (r : Row) (k : String) : Option PyVal :=
  (r.find? (fun kv => kv.1 == k)).map (·.2)

/-- The `seen` accumulation of `_rows_to_columnar`: first-seen column order
across all rows. -/
def firstSeenKeys (rows : List Row) : List String :=
  rows.foldl (fun seen r =>
    r.foldl (fun a kv => if kv.1 ∈ a then a else a ++ [kv.1]) seen) []

/-- `_rows_to_columnar`: empty input gives an empty dict; otherwise
initialize one empty column per first-seen key and then walk the rows,
appending to every column the normalized value of `r.get(k, None)` (the
inner Python loop iterates `seen`, i.e. exactly the keys of `out`). -/
def rowsToColumnar (rows : List Row) : Columnar :=
  match rows with
  | [] => []
  | _ :: _ =>
    let seen := firstSeenKeys rows
    let init : Columnar := seen.map (fun k => (k, []))
    rows.foldl (fun out r =>
      out.map (fun kc => (kc.1, kc.2 ++ [normCell ((lookupRow r kc.1).getD .vnull)]))) init

/-- Characters the `_NAME_KEEP` regex keeps when cleaning `Source`:
`[a-zA-Z0-9._-]`. -/
def keepNameChar (c : Char) : Bool :=
  ('a' ≤ c && c ≤ 'z') || ('A' ≤ c && c ≤ 'Z') || ('0' ≤ c && c ≤ '9') ||
  c = '.' || c = '_' || c = '-'

/-- ASCII whitespace stripped by `str.strip()` (the pipeline's tokens are
ASCII; non-ASCII Unicode whitespace is outside this model). -/
def isPySpaceChar (c : Char) : Bool :=
  c = ' ' || c = '\t' || c = '\n' || c = '\r' || c = Char.ofNat 11 || c = Char.ofNat 12

/-- `str.strip()`: drop whitespace from both ends. -/
def pyStrip (s : List Char) : List Char :=
  (((s.dropWhile isPySpaceChar).reverse).dropWhile isPySpaceChar).reverse

/-- `str.lower()` on ASCII letters (non-ASCII case mapping is outside this
model; the routing tokens are ASCII). -/
def asciiLowerChar (c : Char) : Char :=
  if 'A' ≤ c && c ≤ 'Z' then Char.ofNat (c.toNat + 32) else c

/-- Characters the sanitizers keep: `[a-z0-9_-]`. -/
def allowedSanChar (c : Char) : Bool :=
  ('a' ≤ c && c ≤ 'z') || ('0' ≤ c && c ≤ '9') || c = '_' || c = '-'

/-- The regex substitution `re.sub(r'[^a-z0-9_-]+', '_', ·)`: every maximal
run of disallowed characters collapses to a single underscore.  The Boolean
records whether the previous character was part of a disallowed run. -/
def squashRuns : List Char → Bool → List Char
  | [], _ => []
  | c :: cs, prevBad =>
    if allowedSanChar c then c :: squashRuns cs false
    else if prevBad then squashRuns cs true
    else '_' :: squashRuns cs true

/-- `_sanitize_folder` / `_sanitize_table` (identical bodies in the source):
strip, lowercase, then collapse disallowed runs to `_`. -/
def sanitizeName (s : List Char) : List Char :=
  squashRuns ((pyStrip s).map asciiLowerChar) false

/-- `source.split('.', 1)` packaged with the `'.' in source` test: `some`
with the parts around the first dot when one exists, `none` otherwise. -/
def splitDot : List Char → Option (List Char × List Char)
  | [] => none
  | c :: cs =>
    if c = '.' then some ([], cs)
    else (splitDot cs).map (fun p => (c :: p.1, p.2))

/-- A raw message: the three fields the core interprets.  `none` models an
absent field.  `Data` is carried (already decoded here to the payload the
decoder stage produced) so that routing's independence from it is statable. -/
structure RawMessage where
  Source : Option (List Char)
  Destination : Option (List Char)
  Data : Option PyVal

/-- `resolve_folder_and_table`, with the `DESTINATION_FALLBACK` setting as
the explicit parameter `fb`: clean `Source`, split on the first dot, choose
the trimmed `Destination` when non-empty else the fallback, substitute
`unknown_db`/`unknown_table` for empty parts, and sanitize all three
components (the Python `x or y` on strings is `if x ≠ "" then x else y`). -/
def resolveFolderAndTable (fb : List Char) (msg : RawMessage) :
    List Char × List Char × List Char :=
  let source := (pyStrip (msg.Source.getD [])).filter keepNameChar
  let parts :=
    match splitDot source with
    | some p => p
    | none => (source, source)
  let rawDest := pyStrip (msg.Destination.getD [])
  let folderSource := if rawDest ≠ [] then rawDest else fb
  let folder := sanitizeName (if folderSource ≠ [] then folderSource else fb)
  let sourceDb := sanitizeName (if parts.1 ≠ [] then parts.1 else "unknown_db".toList)
  let tableName := sanitizeName (if parts.2 ≠ [] then parts.2 else "unknown_table".toList)
  (folder, sourceDb, tableName)

/-- The trigger's exclusion test `if not folder or not table` (a message for
which this is `true` is skipped and never aggregated). -/
def routingInvalid (r : List Char × List Char × List Char) : Bool :=
  r.1.isEmpty || r.2.2.isEmpty

/-- `try_decompress`: attempt gzip, then raw DEFLATE, then zlib-with-header,
in that order, returning the first attempt that completes without error; the
fourth attempt (`lambda: data`, pass-through) never fails, so bytes no scheme
accepts come back unchanged.  The three codec calls are library functions
(`gzip.decompress`, `zlib.decompress(·, -15)`, `zlib.decompress`), passed as
parameters; `none` models a raised exception. -/
def tryDecompress (gunzip inflateRaw inflateZlib : List Nat → Option (List Nat))
    (data : List Nat) : List Nat :=
  match gunzip data with
  | some out => out
  | none =>
    match inflateRaw data with
    | some out => out
    | none =>
      match inflateZlib data with
      | some out => out
      | none => data

/-- One emitted artifact of the batch writer: blob name, sliced columns, and
the `row_count` / `batch_number` metadata attached to the Parquet schema. -/
structure Segment where
  name : String
  cols : Columnar
  rowCount : Nat
  batchNumber : Nat
deriving DecidableEq

/-- Python's `f"...{batch_index:04d}..."`: decimal, left-padded with zeros to
at least four digits. -/
def pad4 (n : Nat) : String :=
  let s := toString n
  String.mk (List.replicate (4 - s.length) '0') ++ s

/-- Column slicing `v[start:end]` (0 ≤ start ≤ end case, as in the loop). -/
def sliceCols (tbl : Columnar) (s e : Nat) : Columnar :=
  tbl.map (fun kv => (kv.1, (kv.2.drop s).take (e - s)))

/-- The chunking loop bounds: `while start < rows_count: end = min(start +
MAX_BATCH_SIZE, rows_count); ...; start = end`.  The `0 < M` test totalizes
the definition — with `M = 0` the Python loop would never terminate; every
use below assumes the configured maximum is positive. -/
def chunkBounds (M n start : Nat) : List (Nat × Nat) :=
  if h : 0 < M ∧ start < n then
    (start, min (start + M) n) :: chunkBounds M n (min (start + M) n)
  else []
termination_by n - start
decreasing_by
  exact Nat.sub_lt_sub_left h.2 (by omega)

/-- The per-group writer tail of `eventhub_trigger`: infer the row count from
the first column, then either emit one unchunked segment (name
`{table}_{ts}.parquet`, batch number 0) or one segment per window of the
chunking loop (names `{table}_{ts}_part{NNNN}.parquet`, `batch_index`
counting from 0 in emission order). -/
def writeSegments (M : Nat) (table ts : String) (tbl : Columnar) : List Segment :=
  if M < fragLen tbl then
    (chunkBounds M (fragLen tbl) 0).enum.map (fun p =>
      { name := table ++ "_" ++ ts ++ "_part" ++ pad4 p.1 ++ ".parquet"
        cols := sliceCols tbl p.2.1 p.2.2
        rowCount := p.2.2 - p.2.1
        batchNumber := p.1 })
  else
    [{ name := table ++ "_" ++ ts ++ ".parquet"
       cols := tbl
       rowCount := fragLen tbl
       batchNumber := 0 }]

/-- Shape tag assigned by `process_single_message`. -/
inductive Shape where
  | rows
  | columnar
deriving DecidableEq

/-- The outcome of `process_single_message` for one message: the decoded JSON
value and its shape tag, both `None` when the payload was absent or did not
decode (`Absent`). -/
structure ProcResult where
  decodedData : Option PyVal
  decodedShape : Option Shape

/-- The per-group aggregation of `eventhub_trigger` (lines 348–377): sort
each usable payload into columnar fragments (normalized) or flattened rows,
convert the rows, merge multiple columnar fragments, and combine the two
results; `none` models the `continue` that skips a group with no usable
fragment.  `ford` is the set-iteration order CPython uses for the `keys`
set inside `_merge_columnars`.

`groupStep` is the body of the sorting loop: a message with no decoded
payload is skipped, a columnar-shaped dict payload is normalized and
appended to the columnar fragments, anything else contributes its flattened
rows. -/
def groupStep (acc : List Columnar × List Row) (it : ProcResult) :
    List Columnar × List Row :=
  match it.decodedData, it.decodedShape with
  | some dd, some shape =>
    match shape, dd with
    | .columnar, .vdict d => (acc.1 ++ [normalizeColumnar d], acc.2)
    | _, _ => (acc.1, acc.2 ++ flattenDecodedRows dd)
  | _, _ => acc

/-- The group aggregation itself: run the sorting loop, build the rows-derived
and merged-columnar parts, and combine them exactly as the source does. -/
def processGroup (ford : Finset String → List String) (items : List ProcResult) :
    Option Columnar :=
  let acc := items.foldl groupStep ([], [])
  let colPayloads := acc.1
  let rowsAll := acc.2
  let colFromRows : Columnar := if rowsAll.isEmpty then [] else rowsToColumnar rowsAll
  let colMerged : Columnar :=
    if 1 < colPayloads.length then
      mergeColumnars (ford (keysUnion colPayloads)) colPayloads
    else
      match colPayloads with
      | p :: _ => p
      | [] => []
  let finalParts :=
    (if colFromRows.isEmpty then [] else [colFromRows]) ++
    (if colMerged.isEmpty then [] else [colMerged])
  match finalParts with
  | [] => none
  | [p] => some p
  | ps => some (mergeColumnars (ford (keysUnion ps)) ps)

/-- The artifacts the trigger uploads for one group: none when the group is
skipped, else exactly the segments of its aggregated table (each segment is
one `_write_parquet_under_folder` upload call). -/
def groupArtifacts (ford : Finset String → List String) (M : Nat)
    (table ts : String) (items : List ProcResult) : List Segment :=
  match processGroup ford items with
  | none => []
  | some tbl => writeSegments M table ts tbl

/-! ## Spec-side definitions

These definitions are written from the specification's words, to be compared
with the definitions translated from the source. -/

/-- The spec's ColumnSet test, as the claim states it: a non-empty mapping
whose every value is a sequence, all sequences of one common length (all
empty is the common-length-0 case). -/
def claimColumnSet (d : List (String × PyVal)) : Prop :=
  d ≠ [] ∧ ∃ L : Nat, ∀ kv ∈ d, vListLen kv.2 = some L

/-- Lengths of the list-valued entries, in order (used to state what the
classifier actually computes). -/
def listLens (vals : List PyVal) : List Nat :=
  vals.filterMap vListLen

/-- A prefix of lengths passes the classifier's per-step check when the
lengths seen so far are all equal, or 0 is among them. -/
def okPrefix (l : List Nat) : Prop :=
  (∀ a ∈ l, ∀ b ∈ l, a = b) ∨ 0 ∈ l

/-! ## C4: decompression fallback chain -/

/-- Claim C4: `try_decompress` tries gzip, then raw DEFLATE, then
zlib-with-header, then pass-through, in that fixed order, each attempt
isolated, returning the first attempt that completes without error.  With
the library codecs as parameters, under their standard contracts (each
decompressor inverts its compressor, and the earlier probes reject the later
formats' framing): gzip round-trips, raw-DEFLATE round-trips,
zlib round-trips, and bytes no scheme accepts come back unchanged. -/
theorem try_decompress_chain
    (gunzip inflateRaw inflateZlib : List Nat → Option (List Nat))
    (gzipCompress rawDeflateCompress zlibCompress : List Nat → List Nat)
    (P B : List Nat)
    (hgz : gunzip (gzipCompress P) = some P)
    (hr1 : gunzip (rawDeflateCompress P) = none)
    (hr2 : inflateRaw (rawDeflateCompress P) = some P)
    (hz1 : gunzip (zlibCompress P) = none)
    (hz2 : inflateRaw (zlibCompress P) = none)
    (hz3 : inflateZlib (zlibCompress P) = some P)
    (hB1 : gunzip B = none) (hB2 : inflateRaw B = none) (hB3 : inflateZlib B = none) :
    tryDecompress gunzip inflateRaw inflateZlib (gzipCompress P) = P ∧
    tryDecompress gunzip inflateRaw inflateZlib (rawDeflateCompress P) = P ∧
    tryDecompress gunzip inflateRaw inflateZlib (zlibCompress P) = P ∧
    tryDecompress gunzip inflateRaw inflateZlib B = B := by
  refine ⟨?_, ?_, ?_, ?_⟩ <;>
    simp [tryDecompress, hgz, hr1, hr2, hz1, hz2, hz3, hB1, hB2, hB3]

/-- A toy gzip: two magic bytes in front; the decompressor accepts exactly
that framing. -/
def gunzipToy (b : List Nat) : Option (List Nat) :=
  if b.take 2 = [31, 139] then some (b.drop 2) else none

/-- A toy raw-DEFLATE codec with one framing byte. -/
def inflateRawToy (b : List Nat) : Option (List Nat) :=
  if b.take 1 = [7] then some (b.drop 1) else none

/-- A toy zlib codec with one (different) framing byte. -/
def inflateZlibToy (b : List Nat) : Option (List Nat) :=
  if b.take 1 = [120] then some (b.drop 1) else none

/-- Witness for C4: the chain theorem applied to the toy codecs at the
plaintext `[42]` and the unacceptable byte string `[255]`. -/
theorem try_decompress_chain_witness :
    tryDecompress gunzipToy inflateRawToy inflateZlibToy (31 :: 139 :: [42]) = [42] ∧
    tryDecompress gunzipToy inflateRawToy inflateZlibToy (7 :: [42]) = [42] ∧
    tryDecompress gunzipToy inflateRawToy inflateZlibToy (120 :: [42]) = [42] ∧
    tryDecompress gunzipToy inflateRawToy inflateZlibToy [255] = [255] :=
  try_decompress_chain gunzipToy inflateRawToy inflateZlibToy
    (fun p => 31 :: 139 :: p) (fun p => 7 :: p) (fun p => 120 :: p) [42] [255]
    (by decide) (by decide) (by decide) (by decide) (by decide) (by decide)
    (by decide) (by decide) (by decide)

/-! ## C8: routing reads metadata only -/

/-- Claim C8: routing is a pure function of message metadata: two messages
agreeing on `Source` and `Destination` but with arbitrary (or absent)
`Data` get equal route triples. -/
theorem route_metadata_only (fb : List Char) (m1 m2 : RawMessage)
    (hs : m1.Source = m2.Source) (hd : m1.Destination = m2.Destination) :
    resolveFolderAndTable fb m1 = resolveFolderAndTable fb m2 := by
  cases m1
  cases m2
  cases hs
  cases hd
  rfl

/-- A message carrying a payload. -/
def msgWithData : RawMessage :=
  ⟨some "SalesDB.Orders".toList, some "dest".toList, some (.vstr "payload")⟩

/-- The same metadata with the `Data` field absent. -/
def msgNoData : RawMessage :=
  ⟨some "SalesDB.Orders".toList, some "dest".toList, none⟩

/-- Witness for C8: two concrete messages differing only in `Data` route
identically. -/
theorem route_metadata_only_witness :
    msgWithData.Source = msgNoData.Source ∧
    msgWithData.Destination = msgNoData.Destination ∧
    resolveFolderAndTable "assorted".toList msgWithData =
      resolveFolderAndTable "assorted".toList msgNoData :=
  ⟨rfl, rfl, route_metadata_only "assorted".toList msgWithData msgNoData rfl rfl⟩

/-! ## C1: the shape classifier -/

/-- A mapping with one empty and one two-element column: the claim says this
is not a ColumnSet, the code accepts it. -/
def colDictEx : List (String × PyVal) :=
  [("a", .vlist []), ("b", .vlist [.vstr "x", .vstr "y"])]

/-- Claim C1 counterexample: `_is_columnar_dict` labels
`{"a": [], "b": ["x", "y"]}` a ColumnSet even though its sequences have two
different lengths (0 and 2), because the length-mismatch check is suppressed
whenever 0 is among the lengths seen so far. -/
theorem is_columnar_dict_counterexample :
    isColumnarDict colDictEx = true ∧ ¬ claimColumnSet colDictEx := by
  constructor
  · decide
  · rintro ⟨-, L, h⟩
    have h1 := h ("a", .vlist []) (by simp [colDictEx])
    have h2 := h ("b", .vlist [.vstr "x", .vstr "y"]) (by simp [colDictEx])
    simp [vListLen] at h1 h2
    omega

/-! ## C2, C3: the columnar merge -/

/-- The merged output's column names are exactly the iteration order of the
`keys` set, whatever that order is (the merge has at least one input). -/
lemma mergeColumnars_keys (ord : List String) (dicts : List Columnar)
    (h : dicts ≠ []) : (mergeColumnars ord dicts).map Prod.fst = ord := by
  simp only [mergeColumnars, h, List.isEmpty_eq_true, if_false, List.map_map]
  have : (Prod.fst ∘ fun k => (k, (dicts.map (fun d =>
      match lookupCol d k with
      | some vs => vs
      | none => List.replicate (fragLen d) (none : Cell))).flatten)) = id := by
    funext k
    rfl
  rw [this, List.map_id]

/-- Membership in the folded key union. -/
lemma mem_keysUnion_foldl (dicts : List Columnar) :
    ∀ (acc : Finset String) (x : String),
      (x ∈ dicts.foldl (fun a d => a ∪ (d.map Prod.fst).toFinset) acc) ↔
        x ∈ acc ∨ ∃ d ∈ dicts, x ∈ d.map Prod.fst := by
  induction dicts with
  | nil => simp
  | cons d rest ih =>
    intro acc x
    simp only [List.foldl_cons]
    rw [ih]
    simp [Finset.mem_union, List.mem_toFinset]
    tauto

/-- Membership in the `keys` set of `_merge_columnars`. -/
lemma mem_keysUnion (dicts : List Columnar) (x : String) :
    x ∈ keysUnion dicts ↔ ∃ d ∈ dicts, x ∈ d.map Prod.fst := by
  rw [keysUnion, mem_keysUnion_foldl]
  simp

/-- Claim C2: there is no way to read the merged output's column order as
the first-seen ordered union.  CPython iterates the `keys` set in an order
determined by the set's contents (hash order), not by insertion; whatever
function of the key set that order is, the two single-column inputs
`{"a": ...}` and `{"b": ...}` supplied in the two opposite orders have the
same key set, hence the same output order — but their first-seen unions
differ.  So `_merge_columnars` cannot implement the claimed ordering. -/
theorem merge_columnars_not_first_seen :
    ¬ ∃ f : Finset String → List String,
        ∀ dicts : List Columnar,
          (mergeColumnars (f (keysUnion dicts)) dicts).map Prod.fst =
            firstSeenUnion dicts := by
  rintro ⟨f, hf⟩
  have hKey : keysUnion [[("a", [some "x"])], [("b", [some "y"])]] =
      keysUnion [[("b", [some "y"])], [("a", [some "x"])]] := by decide
  have h1 := hf [[("a", [some "x"])], [("b", [some "y"])]]
  have h2 := hf [[("b", [some "y"])], [("a", [some "x"])]]
  rw [mergeColumnars_keys _ _ (by simp)] at h1 h2
  rw [hKey] at h1
  rw [h2] at h1
  have : firstSeenUnion [[("b", [some "y"])], [("a", [some "x"])]] = ["b", "a"] := by
    decide
  rw [this] at h1
  have : firstSeenUnion [[("a", [some "x"])], [("b", [some "y"])]] = ["a", "b"] := by
    decide
  rw [this] at h1
  simp at h1

/-- From a successful fragment lookup, the result is one of the fragment's
columns. -/
lemma lookupCol_mem (d : Columnar) (k : String) (vs : List Cell)
    (h : lookupCol d k = some vs) : ∃ kv ∈ d, kv.2 = vs := by
  unfold lookupCol at h
  cases hf : d.find? (fun kv => kv.1 == k) with
  | none => rw [hf] at h; simp at h
  | some kv =>
    rw [hf] at h
    simp at h
    exact ⟨kv, List.mem_of_find?_eq_some hf, h⟩

/-- Claim C3: when every input fragment satisfies the equal-column-length
invariant, every column of the merged output has length equal to the sum of
the inputs' row counts, and the merged table's own row count (first-column
length, 0 for an empty table) is that same sum. -/
theorem merge_columnars_row_counts (dicts : List Columnar) (ord : List String)
    (hord : ord.toFinset = keysUnion dicts)
    (hlen : ∀ d ∈ dicts, ∀ kv ∈ d, kv.2.length = fragLen d) :
    (∀ kv ∈ mergeColumnars ord dicts, kv.2.length = (dicts.map fragLen).sum) ∧
    fragLen (mergeColumnars ord dicts) = (dicts.map fragLen).sum := by
  have hcol : ∀ kv ∈ mergeColumnars ord dicts,
      kv.2.length = (dicts.map fragLen).sum := by
    intro kv hkv
    by_cases hd : dicts.isEmpty
    · simp [mergeColumnars, hd] at hkv
    · simp only [mergeColumnars, hd, Bool.false_eq_true, if_false] at hkv
      rw [List.mem_map] at hkv
      obtain ⟨k, hk, hkeq⟩ := hkv
      rw [← hkeq]
      simp only [List.length_flatten, List.map_map]
      have hpt : ∀ d ∈ dicts, (List.length ∘ fun d =>
          match lookupCol d k with
          | some vs => vs
          | none => List.replicate (fragLen d) (none : Cell)) d = fragLen d := by
        intro d hdmem
        simp only [Function.comp]
        cases hl : lookupCol d k with
        | some vs =>
          obtain ⟨kv', hkv', hveq⟩ := lookupCol_mem d k vs hl
          rw [← hveq]
          exact hlen d hdmem kv' hkv'
        | none => simp
      rw [List.map_congr_left hpt]
  refine ⟨hcol, ?_⟩
  by_cases hd : dicts.isEmpty
  · rw [List.isEmpty_iff] at hd
    subst hd
    simp [mergeColumnars, fragLen]
  · cases hord' : ord with
    | nil =>
      have hempty : ∀ d ∈ dicts, d = [] := by
        intro d hdmem
        cases hde : d with
        | nil => rfl
        | cons kv rest =>
          exfalso
          have : kv.1 ∈ keysUnion dicts := by
            rw [mem_keysUnion]
            exact ⟨d, hdmem, by rw [hde]; simp⟩
          rw [← hord, hord'] at this
          simp at this
      have : mergeColumnars [] dicts = [] := by
        simp [mergeColumnars, hd]
      rw [this]
      have : (dicts.map fragLen).sum = 0 := by
        apply List.sum_eq_zero
        intro x hx
        simp only [List.mem_map] at hx
        obtain ⟨d, hdmem, hxeq⟩ := hx
        rw [hempty d hdmem] at hxeq
        simp [fragLen] at hxeq
        omega
      rw [this]
      rfl
    | cons k ordRest =>
      have hcons : mergeColumnars ord dicts =
          (k, (dicts.map (fun d =>
            match lookupCol d k with
            | some vs => vs
            | none => List.replicate (fragLen d) (none : Cell))).flatten) ::
          ordRest.map (fun k2 =>
            (k2, (dicts.map (fun d =>
              match lookupCol d k2 with
              | some vs => vs
              | none => List.replicate (fragLen d) (none : Cell))).flatten)) := by
        simp only [mergeColumnars, hd, Bool.false_eq_true, if_false, hord',
          List.map_cons]
      have hmem : (k, (dicts.map (fun d =>
            match lookupCol d k with
            | some vs => vs
            | none => List.replicate (fragLen d) (none : Cell))).flatten) ∈
          mergeColumnars ord dicts := by
        rw [hcons]
        exact List.mem_cons_self _ _
      have hlenk := hcol _ hmem
      rw [← hord', hcons]
      simpa [fragLen] using hlenk

/-- The claim's worked example: `{"a": ["1","2"]}` and `{"b": ["x"]}`. -/
def mergeExDicts : List Columnar :=
  [[("a", [some "1", some "2"])], [("b", [some "x"])]]

/-- Witness for C3: the merge of the claim's example fragments is
`{"a": ["1","2",null], "b": [null,null,"x"]}`, and the row-count theorem
applies to it with total 3. -/
theorem merge_columnars_row_counts_witness :
    (["a", "b"] : List String).toFinset = keysUnion mergeExDicts ∧
    (∀ d ∈ mergeExDicts, ∀ kv ∈ d, kv.2.length = fragLen d) ∧
    mergeColumnars ["a", "b"] mergeExDicts =
      [("a", [some "1", some "2", none]), ("b", [none, none, some "x"])] ∧
    ((∀ kv ∈ mergeColumnars ["a", "b"] mergeExDicts,
        kv.2.length = (mergeExDicts.map fragLen).sum) ∧
      fragLen (mergeColumnars ["a", "b"] mergeExDicts) =
        (mergeExDicts.map fragLen).sum) :=
  ⟨by decide, by decide, by decide,
    merge_columnars_row_counts mergeExDicts ["a", "b"] (by decide) (by decide)⟩

/-! ## C6: rows to columnar -/

/-- Appending cells row by row to every column is the same as appending, per
column, the whole run of that row's cells. -/
lemma rows_foldl_cells (rows : List Row) :
    ∀ cols : Columnar,
      rows.foldl (fun out r =>
        out.map (fun kc =>
          (kc.1, kc.2 ++ [normCell ((lookupRow r kc.1).getD .vnull)]))) cols =
      cols.map (fun kc =>
        (kc.1, kc.2 ++ rows.map (fun r =>
          normCell ((lookupRow r kc.1).getD .vnull)))) := by
  induction rows with
  | nil =>
    intro cols
    simp
  | cons r rs ih =>
    intro cols
    simp only [List.foldl_cons, List.map_cons]
    rw [ih, List.map_map]
    apply List.map_congr_left
    intro kc _
    simp

/-- Claim C6: for a non-empty list of row mappings, the conversion yields
the columns in first-seen order across the rows, and the column of key `k`
is, row by row, the normalized value of `r.get(k, None)` (so a missing key
pads with null and every cell passes scalar normalization). -/
theorem rows_to_columnar_spec (rows : List Row) (h : rows ≠ []) :
    rowsToColumnar rows =
      (firstSeenKeys rows).map (fun k =>
        (k, rows.map (fun r => normCell ((lookupRow r k).getD PyVal.vnull)))) := by
  cases rows with
  | nil => exact absurd rfl h
  | cons r rs =>
    show (r :: rs).foldl _ ((firstSeenKeys (r :: rs)).map (fun k => (k, []))) = _
    rw [rows_foldl_cells, List.map_map]
    apply List.map_congr_left
    intro k _
    simp

/-- The claim's example rows `[{"x": 1, "y": 2}, {"x": 3}]`. -/
def rowsEx : List Row :=
  [[("x", .vint 1), ("y", .vint 2)], [("x", .vint 3)]]

/-- Witness for C6: the example rows produce column order `["x", "y"]` with
`x = ["1", "3"]` and `y = ["2", null]`, and the characterization theorem
applies to them. -/
theorem rows_to_columnar_spec_witness :
    rowsEx ≠ [] ∧
    rowsToColumnar rowsEx = [("x", [some "1", some "3"]), ("y", [some "2", none])] ∧
    rowsToColumnar rowsEx =
      (firstSeenKeys rowsEx).map (fun k =>
        (k, rowsEx.map (fun r => normCell ((lookupRow r k).getD PyVal.vnull)))) :=
  ⟨by simp [rowsEx], by decide, rows_to_columnar_spec rowsEx (by simp [rowsEx])⟩

/-! ## C1 (amended): what the classifier actually accepts -/

/-- The classifier loop accepts exactly those value sequences that are all
lists and whose every length-prefix is either constant or touches 0.  The
accumulator is tracked as the list of lengths already seen. -/
lemma isColumnarLoop_iff (vals : List PyVal) :
    ∀ P : List Nat,
      isColumnarLoop vals P.toFinset = true ↔
        (∀ v ∈ vals, isVList v = true) ∧
        ∀ n < vals.length, okPrefix (P ++ listLens (vals.take (n + 1))) := by
  induction vals with
  | nil =>
    intro P
    simp [isColumnarLoop]
  | cons v rest ih =>
    intro P
    cases v with
    | vlist xs =>
      have hins : insert xs.length P.toFinset = (P ++ [xs.length]).toFinset := by
        rw [List.toFinset_append]
        simp [Finset.insert_eq, Finset.union_comm]
      have hcond : (1 < (insert xs.length P.toFinset).card ∧
            0 ∉ insert xs.length P.toFinset) ↔ ¬ okPrefix (P ++ [xs.length]) := by
        rw [hins]
        unfold okPrefix
        constructor
        · rintro ⟨hcard, hzero⟩ hok
          rcases hok with hall | hz
          · have hle : (P ++ [xs.length]).toFinset.card ≤ 1 := by
              apply Finset.card_le_one.mpr
              intro a ha b hb
              rw [List.mem_toFinset] at ha hb
              exact hall a ha b hb
            omega
          · exact hzero (List.mem_toFinset.mpr hz)
        · intro hnok
          constructor
          · by_contra hc
            push_neg at hc
            apply hnok
            left
            intro a ha b hb
            exact Finset.card_le_one.mp (by omega) a (List.mem_toFinset.mpr ha)
              b (List.mem_toFinset.mpr hb)
          · intro hz
            exact hnok (Or.inr (List.mem_toFinset.mp hz))
      show (if 1 < (insert xs.length P.toFinset).card ∧
            0 ∉ insert xs.length P.toFinset then false
          else isColumnarLoop rest (insert xs.length P.toFinset)) = true ↔ _
      by_cases hok : okPrefix (P ++ [xs.length])
      · rw [if_neg (fun hco => (hcond.mp hco) hok)]
        rw [hins, ih (P ++ [xs.length])]
        constructor
        · rintro ⟨hlist, hpre⟩
          refine ⟨?_, ?_⟩
          · intro w hw
            rcases List.mem_cons.mp hw with h1 | h2
            · subst h1; rfl
            · exact hlist w h2
          · intro n hn
            cases n with
            | zero => simpa [listLens, vListLen] using hok
            | succ m =>
              have hm : m < rest.length := by simpa using hn
              have hgot := hpre m hm
              simpa [listLens, vListLen, List.append_assoc] using hgot
        · rintro ⟨hlist, hpre⟩
          refine ⟨?_, ?_⟩
          · intro w hw
            exact hlist w (List.mem_cons_of_mem _ hw)
          · intro m hm
            have hgot := hpre (m + 1) (by simpa using Nat.succ_lt_succ hm)
            simpa [listLens, vListLen, List.append_assoc] using hgot
      · rw [if_pos (hcond.mpr hok)]
        constructor
        · intro hfalse
          exact absurd hfalse (by simp)
        · rintro ⟨hlist, hpre⟩
          exfalso
          apply hok
          have hgot := hpre 0 (by simp)
          simpa [listLens, vListLen] using hgot
    | vnull => simp [isColumnarLoop, isVList]
    | vbool b => simp [isColumnarLoop, isVList]
    | vint n => simp [isColumnarLoop, isVList]
    | vfloat rendered => simp [isColumnarLoop, isVList]
    | vstr s => simp [isColumnarLoop, isVList]
    | vdict kvs => simp [isColumnarLoop, isVList]
    | vdatetime iso => simp [isColumnarLoop, isVList]

/-- Claim C1 as amended: `_is_columnar_dict` labels `d` a ColumnSet exactly
when `d` is a non-empty mapping, every value is a sequence, and every prefix
of the sequence lengths (in dict order) is either all one value or contains
the length 0 — i.e. the common-length requirement is waived from the first
point a 0 length has been seen, so mixed lengths are accepted whenever an
empty sequence occurs no later than the first length mismatch. -/
theorem is_columnar_dict_iff (d : List (String × PyVal)) :
    isColumnarDict d = true ↔
      d ≠ [] ∧ (∀ kv ∈ d, isVList kv.2 = true) ∧
      ∀ n < d.length, okPrefix (listLens ((d.map (·.2)).take (n + 1))) := by
  unfold isColumnarDict
  rw [Bool.and_eq_true]
  rw [← List.toFinset_nil, isColumnarLoop_iff (d.map (·.2)) []]
  simp only [List.nil_append, List.length_map]
  constructor
  · rintro ⟨hne, hlist, hpre⟩
    refine ⟨by simpa using hne, ?_, hpre⟩
    intro kv hkv
    exact hlist _ (List.mem_map_of_mem _ hkv)
  · rintro ⟨hne, hlist, hpre⟩
    refine ⟨by simpa using hne, ?_, hpre⟩
    intro v hv
    rw [List.mem_map] at hv
    obtain ⟨kv, hkv, hveq⟩ := hv
    rw [← hveq]
    exact hlist kv hkv

/-! ## C7: routing -/

/-- A whitespace character is never in the `_NAME_KEEP` class. -/
lemma keepName_of_space (c : Char) (h : isPySpaceChar c = true) :
    keepNameChar c = false := by
  simp only [isPySpaceChar, Bool.or_eq_true, decide_eq_true_eq] at h
  rcases h with ((((h | h) | h) | h) | h) | h <;> subst h <;> decide

/-- Dropping a run the filter would discard anyway does not change the
filter. -/
lemma filter_dropWhile (p q : Char → Bool) (hq : ∀ c, q c = true → p c = false)
    (l : List Char) : (l.dropWhile q).filter p = l.filter p := by
  conv_rhs => rw [← List.takeWhile_append_dropWhile q l]
  rw [List.filter_append]
  have hnil : (l.takeWhile q).filter p = [] := by
    rw [List.filter_eq_nil_iff]
    intro a ha
    simp [hq a (List.mem_takeWhile_imp ha)]
  rw [hnil, List.nil_append]

/-- Stripping before filtering is redundant when the filter discards all
whitespace. -/
lemma filter_pyStrip (p : Char → Bool) (hp : ∀ c, isPySpaceChar c = true → p c = false)
    (s : List Char) : (pyStrip s).filter p = s.filter p := by
  unfold pyStrip
  rw [List.filter_reverse, filter_dropWhile p isPySpaceChar hp,
    List.filter_reverse, List.reverse_reverse,
    filter_dropWhile p isPySpaceChar hp]

/-- The routing rule exactly as the claim words it: clean `Source` to
`[A-Za-z0-9._-]`, split on the first dot (both parts are the cleaned string
when no dot is present), use trimmed `Destination` if non-empty else the
fallback, substitute the `unknown` tokens for empty parts, and sanitize all
three. -/
def claimRoute (fb : List Char) (msg : RawMessage) :
    List Char × List Char × List Char :=
  let cleaned := (msg.Source.getD []).filter keepNameChar
  let parts :=
    match splitDot cleaned with
    | some p => p
    | none => (cleaned, cleaned)
  let destTrim := pyStrip (msg.Destination.getD [])
  (sanitizeName (if destTrim ≠ [] then destTrim else fb),
   sanitizeName (if parts.1 ≠ [] then parts.1 else "unknown_db".toList),
   sanitizeName (if parts.2 ≠ [] then parts.2 else "unknown_table".toList))

/-- Claim C7: `resolve_folder_and_table` computes exactly the routing rule
of the claim, and on the worked example `Source="SalesDB.Orders"`,
`Destination=""`, fallback `"assorted"` it returns
`("assorted", "salesdb", "orders")`. -/
theorem resolve_route_spec :
    (∀ (fb : List Char) (msg : RawMessage),
        resolveFolderAndTable fb msg = claimRoute fb msg) ∧
    resolveFolderAndTable "assorted".toList
        ⟨some "SalesDB.Orders".toList, some [], none⟩ =
      ("assorted".toList, "salesdb".toList, "orders".toList) := by
  constructor
  · intro fb msg
    unfold resolveFolderAndTable claimRoute
    rw [filter_pyStrip keepNameChar keepName_of_space]
    by_cases hd : pyStrip (msg.Destination.getD []) ≠ []
    · simp only [hd, if_true, ite_not]
      simp [hd]
    · simp only [hd, if_false]
      push_neg at hd
      simp [hd]
  · decide

/-! ## C10: routing never produces empty components -/

/-- The sanitizer keeps a non-empty stripped input non-empty: the squashing
substitution maps every character either to itself or into an underscore
run, so the first character always contributes something. -/
lemma sanitizeName_ne_nil_of_strip (s : List Char) (h : pyStrip s ≠ []) :
    sanitizeName s ≠ [] := by
  unfold sanitizeName
  obtain ⟨c, cs, hcc⟩ := List.exists_cons_of_ne_nil h
  rw [hcc]
  simp only [List.map_cons]
  cases hA : allowedSanChar (asciiLowerChar c) <;> simp [squashRuns, hA]

/-- A string of whitespace strips to nothing. -/
lemma pyStrip_nil_of_all (s : List Char)
    (h : ∀ c ∈ s, isPySpaceChar c = true) : pyStrip s = [] := by
  have h1 : ∀ (l : List Char), (∀ c ∈ l, isPySpaceChar c = true) →
      l.dropWhile isPySpaceChar = [] := by
    intro l
    induction l with
    | nil => intro _; rfl
    | cons a t ih =>
      intro hl
      rw [List.dropWhile_cons, if_pos (hl a (List.mem_cons_self a t))]
      exact ih (fun x hx => hl x (List.mem_cons_of_mem a hx))
  unfold pyStrip
  rw [h1 s h]
  rfl

/-- A character the predicate rejects survives `dropWhile`. -/
lemma mem_dropWhile_self (q : Char → Bool) (c : Char) :
    ∀ l : List Char, c ∈ l → q c = false → c ∈ l.dropWhile q := by
  intro l
  induction l with
  | nil =>
    intro h _
    exact absurd h (List.not_mem_nil c)
  | cons a t ih =>
    intro hmem hq
    rw [List.dropWhile_cons]
    by_cases ha : q a = true
    · rw [if_pos ha]
      rcases List.mem_cons.mp hmem with he | ht
      · subst he
        rw [ha] at hq
        cases hq
      · exact ih ht hq
    · rw [if_neg ha]
      exact hmem

/-- A non-whitespace character of `s` survives stripping. -/
lemma mem_pyStrip (c : Char) (s : List Char) (hc : c ∈ s)
    (hns : isPySpaceChar c = false) : c ∈ pyStrip s := by
  unfold pyStrip
  rw [List.mem_reverse]
  apply mem_dropWhile_self _ _ _ _ hns
  rw [List.mem_reverse]
  exact mem_dropWhile_self _ _ _ hc hns

/-- A string holding any non-whitespace character strips to something. -/
lemma pyStrip_ne_nil (s : List Char)
    (h : ∃ c ∈ s, isPySpaceChar c = false) : pyStrip s ≠ [] := by
  obtain ⟨c, hc, hns⟩ := h
  intro he
  have hmem : c ∈ pyStrip s := mem_pyStrip c s hc hns
  rw [he] at hmem
  exact List.not_mem_nil c hmem

/-- Conversely, a string that strips to something holds a non-whitespace
character. -/
lemma exists_nonspace_of_pyStrip_ne_nil (s : List Char) (h : pyStrip s ≠ []) :
    ∃ c ∈ s, isPySpaceChar c = false := by
  by_contra hno
  push_neg at hno
  apply h
  apply pyStrip_nil_of_all
  intro c hc
  have hcc := hno c hc
  simpa using hcc

/-- Stripping is stable: a stripped non-empty string strips to non-empty. -/
lemma pyStrip_pyStrip (s : List Char) (h : pyStrip s ≠ []) :
    pyStrip (pyStrip s) ≠ [] := by
  obtain ⟨c, hc, hns⟩ := exists_nonspace_of_pyStrip_ne_nil s h
  exact pyStrip_ne_nil _ ⟨c, mem_pyStrip c s hc hns, hns⟩

/-- A string of `_NAME_KEEP` characters holds no whitespace, so stripping
leaves it unchanged. -/
lemma pyStrip_eq_self_of_keep (s : List Char)
    (h : ∀ c ∈ s, keepNameChar c = true) : pyStrip s = s := by
  have hns : ∀ c ∈ s, isPySpaceChar c = false := by
    intro c hc
    by_contra hsp
    rw [Bool.not_eq_false] at hsp
    have hk := keepName_of_space c hsp
    rw [h c hc] at hk
    cases hk
  have hds : ∀ (l : List Char), (∀ c ∈ l, isPySpaceChar c = false) →
      l.dropWhile isPySpaceChar = l := by
    intro l hl
    cases l with
    | nil => rfl
    | cons a t =>
      rw [List.dropWhile_cons, if_neg (by simp [hl a (List.mem_cons_self a t)])]
  unfold pyStrip
  rw [hds s hns, hds _ (fun c hc => hns c (List.mem_reverse.mp hc)),
    List.reverse_reverse]

/-- A successful first-dot split decomposes the string. -/
lemma splitDot_eq (s : List Char) :
    ∀ a b, splitDot s = some (a, b) → s = a ++ '.' :: b := by
  induction s with
  | nil =>
    intro a b h
    simp [splitDot] at h
  | cons c cs ih =>
    intro a b h
    simp only [splitDot] at h
    by_cases hc : c = '.'
    · rw [if_pos hc] at h
      simp only [Option.some.injEq, Prod.mk.injEq] at h
      obtain ⟨ha, hb⟩ := h
      subst ha
      subst hb
      rw [hc]
      rfl
    · rw [if_neg hc] at h
      cases hs : splitDot cs with
      | none =>
        rw [hs] at h
        simp at h
      | some p =>
        rw [hs] at h
        simp only [Option.map_some', Option.some.injEq, Prod.mk.injEq] at h
        obtain ⟨ha, hb⟩ := h
        have hcs := ih p.1 p.2 (by rw [hs])
        rw [← ha, ← hb, List.cons_append, ← hcs]

/-- The folder component of the routing triple, unfolded. -/
lemma resolve_folder_eq (fb : List Char) (msg : RawMessage) :
    (resolveFolderAndTable fb msg).1 =
      sanitizeName (if (if pyStrip (msg.Destination.getD []) ≠ []
            then pyStrip (msg.Destination.getD []) else fb) ≠ []
        then (if pyStrip (msg.Destination.getD []) ≠ []
            then pyStrip (msg.Destination.getD []) else fb)
        else fb) := rfl

/-- The table component of the routing triple, unfolded. -/
lemma resolve_table_eq (fb : List Char) (msg : RawMessage) :
    (resolveFolderAndTable fb msg).2.2 =
      (fun src =>
        sanitizeName (if (match splitDot src with
            | some p => p
            | none => (src, src)).2 ≠ []
          then (match splitDot src with
            | some p => p
            | none => (src, src)).2
          else "unknown_table".toList))
        ((pyStrip (msg.Source.getD [])).filter keepNameChar) := rfl

/-- For any cleaned source, the sanitized table component is non-empty. -/
lemma table_component_ne_nil (src : List Char)
    (hkeep : ∀ c ∈ src, keepNameChar c = true) :
    sanitizeName (if (match splitDot src with
        | some p => p
        | none => (src, src)).2 ≠ []
      then (match splitDot src with
        | some p => p
        | none => (src, src)).2
      else "unknown_table".toList) ≠ [] := by
  cases hsp : splitDot src with
  | none =>
    simp only [hsp]
    by_cases hs : src ≠ []
    · rw [if_pos hs]
      apply sanitizeName_ne_nil_of_strip
      rw [pyStrip_eq_self_of_keep src hkeep]
      exact hs
    · push_neg at hs
      rw [if_neg (by simp [hs])]
      decide
  | some p =>
    simp only [hsp]
    have hseq := splitDot_eq src p.1 p.2 (by rw [hsp])
    by_cases hb : p.2 ≠ []
    · rw [if_pos hb]
      apply sanitizeName_ne_nil_of_strip
      rw [pyStrip_eq_self_of_keep]
      · exact hb
      · intro c hc
        apply hkeep
        rw [hseq]
        exact List.mem_append.mpr (Or.inr (List.mem_cons_of_mem _ hc))
    · push_neg at hb
      rw [if_neg (by simp [hb])]
      decide

/-- Claim C10: when the configured fallback folder strips to a non-empty
string, routing always yields a non-empty folder and a non-empty table, so
the trigger's invalid-routing exclusion test never fires. -/
theorem resolve_route_nonempty (fb : List Char) (msg : RawMessage)
    (hfb : pyStrip fb ≠ []) :
    (resolveFolderAndTable fb msg).1 ≠ [] ∧
    (resolveFolderAndTable fb msg).2.2 ≠ [] ∧
    routingInvalid (resolveFolderAndTable fb msg) = false := by
  have h1 : (resolveFolderAndTable fb msg).1 ≠ [] := by
    rw [resolve_folder_eq]
    by_cases hdne : pyStrip (msg.Destination.getD []) ≠ []
    · simp only [if_pos hdne]
      exact sanitizeName_ne_nil_of_strip _ (pyStrip_pyStrip _ hdne)
    · push_neg at hdne
      rw [hdne]
      have hinner : (if ([] : List Char) ≠ [] then ([] : List Char) else fb) = fb := by
        simp
      rw [hinner, ite_self]
      exact sanitizeName_ne_nil_of_strip fb hfb
  have h2 : (resolveFolderAndTable fb msg).2.2 ≠ [] := by
    rw [resolve_table_eq]
    exact table_component_ne_nil _ (fun c hc => (List.mem_filter.mp hc).2)
  refine ⟨h1, h2, ?_⟩
  have e1 : (resolveFolderAndTable fb msg).1.isEmpty = false := by
    cases hg : (resolveFolderAndTable fb msg).1 with
    | nil => exact absurd hg h1
    | cons a t => rfl
  have e2 : (resolveFolderAndTable fb msg).2.2.isEmpty = false := by
    cases hg : (resolveFolderAndTable fb msg).2.2 with
    | nil => exact absurd hg h2
    | cons a t => rfl
  unfold routingInvalid
  rw [e1, e2]
  rfl

/-- Witness for C10: with fallback `"assorted"` and a message with no
fields at all, routing is non-empty and the exclusion test does not fire. -/
theorem resolve_route_nonempty_witness :
    pyStrip "assorted".toList ≠ [] ∧
    ((resolveFolderAndTable "assorted".toList ⟨none, none, none⟩).1 ≠ [] ∧
     (resolveFolderAndTable "assorted".toList ⟨none, none, none⟩).2.2 ≠ [] ∧
     routingInvalid (resolveFolderAndTable "assorted".toList ⟨none, none, none⟩) = false) :=
  ⟨by decide, resolve_route_nonempty "assorted".toList ⟨none, none, none⟩ (by decide)⟩

/-! ## C5: chunked segment emission -/

/-- Closed form of the chunking loop: starting at `start`, the loop emits
`⌈(n - start) / M⌉` windows, window `i` covering rows
`[start + i*M, min (start + (i+1)*M) n)`. -/
lemma chunkBounds_eq (M n : Nat) (hM : 0 < M) :
    ∀ start, chunkBounds M n start =
      (List.range ((n - start + M - 1) / M)).map
        (fun i => (start + i * M, min (start + (i + 1) * M) n)) := by
  have H : ∀ k, ∀ start, n - start = k → chunkBounds M n start =
      (List.range ((n - start + M - 1) / M)).map
        (fun i => (start + i * M, min (start + (i + 1) * M) n)) := by
    intro k
    induction k using Nat.strong_induction_on with
    | _ k ih =>
      intro start hk
      rw [chunkBounds]
      by_cases h : 0 < M ∧ start < n
      · rw [dif_pos h]
        rw [ih (n - min (start + M) n) (by omega) (min (start + M) n) rfl]
        by_cases hend : start + M < n
        · have hmin : min (start + M) n = start + M := by omega
          rw [hmin]
          have hcnt : (n - start + M - 1) / M = (n - (start + M) + M - 1) / M + 1 := by
            have h1 : n - start + M - 1 = (n - (start + M) + M - 1) + M := by omega
            rw [h1, Nat.add_div_right _ hM]
          rw [hcnt, List.range_succ_eq_map, List.map_cons, List.map_map]
          congr 1
          · simp
            omega
          · apply List.map_congr_left
            intro i _
            simp only [Function.comp, Nat.succ_eq_add_one, Prod.mk.injEq]
            constructor
            · ring
            · have he : start + M + (i + 1) * M = start + (i + 1 + 1) * M := by ring
              rw [he]
        · have hmin : min (start + M) n = n := by omega
          rw [hmin]
          have hc0 : (n - n + M - 1) / M = 0 := by
            apply Nat.div_eq_of_lt
            omega
          have hc1 : (n - start + M - 1) / M = 1 := by
            apply Nat.div_eq_of_lt_le
            · omega
            · omega
          rw [hc0, hc1]
          have hr1 : List.range 1 = [0] := rfl
          rw [hr1, List.map_cons, List.map_nil]
          simp only [Nat.zero_mul, Nat.add_zero, Nat.zero_add, Nat.one_mul]
          rw [hmin]
          simp
      · rw [dif_neg h]
        have hge : n ≤ start := by omega
        have hc0 : (n - start + M - 1) / M = 0 := by
          apply Nat.div_eq_of_lt
          omega
        rw [hc0]
        rfl
  intro start
  exact H (n - start) start rfl

/-- Claim C5: with a positive configured maximum `M`, a table of `n` rows is
emitted as one unchunked segment `{table}_{ts}.parquet` with batch number 0
when `n ≤ M`, and otherwise as `⌈n / M⌉` segments, segment `i` named
`{table}_{ts}_part{i, zero-padded to 4}.parquet`, slicing every column over
rows `[i*M, min ((i+1)*M) n)`, carrying that window's row count and batch
number `i`. -/
theorem write_segments_spec (M : Nat) (hM : 0 < M) (table ts : String)
    (tbl : Columnar) :
    (fragLen tbl ≤ M →
      writeSegments M table ts tbl =
        [{ name := table ++ "_" ++ ts ++ ".parquet", cols := tbl,
           rowCount := fragLen tbl, batchNumber := 0 }]) ∧
    (M < fragLen tbl →
      writeSegments M table ts tbl =
        (List.range ((fragLen tbl + M - 1) / M)).map (fun i =>
          { name := table ++ "_" ++ ts ++ "_part" ++ pad4 i ++ ".parquet",
            cols := sliceCols tbl (i * M) (min ((i + 1) * M) (fragLen tbl)),
            rowCount := min ((i + 1) * M) (fragLen tbl) - i * M,
            batchNumber := i })) := by
  constructor
  · intro hle
    unfold writeSegments
    rw [if_neg (by omega)]
  · intro hgt
    unfold writeSegments
    rw [if_pos hgt, chunkBounds_eq M (fragLen tbl) hM 0]
    simp only [Nat.sub_zero, Nat.zero_add]
    apply List.ext_getElem
    · simp
    · intro i h1 h2
      simp [List.getElem_enum]

/-- The claim's example table: one column of 4500 rows. -/
def tblC5 : Columnar := [("a", List.replicate 4500 (some "x"))]

/-- Witness for C5: 4500 rows with a maximum of 2000 produce exactly 3
segments of row counts 2000, 2000, 500 with part indices 0000, 0001, 0002. -/
theorem write_segments_spec_witness :
    (0 : Nat) < 2000 ∧ 2000 < fragLen tblC5 ∧
    (writeSegments 2000 "t" "20250101000000" tblC5).map
        (fun s => (s.name, s.rowCount, s.batchNumber)) =
      [("t_20250101000000_part0000.parquet", 2000, 0),
       ("t_20250101000000_part0001.parquet", 2000, 1),
       ("t_20250101000000_part0002.parquet", 500, 2)] := by
  have hn : fragLen tblC5 = 4500 := by
    simp only [tblC5, fragLen, List.length_replicate]
  refine ⟨by decide, by rw [hn]; decide, ?_⟩
  have h := (write_segments_spec 2000 (by decide) "t" "20250101000000" tblC5).2
    (by rw [hn]; decide)
  rw [h, hn]
  decide

/-! ## C9: all-Absent groups are dropped -/

/-- Messages with no decoded payload contribute nothing to the sorting
loop. -/
lemma foldl_groupStep_skip :
    ∀ (items : List ProcResult), (∀ it ∈ items, it.decodedData = none) →
      ∀ acc, items.foldl groupStep acc = acc := by
  intro items
  induction items with
  | nil =>
    intro _ acc
    rfl
  | cons it rest ih =>
    intro h acc
    rw [List.foldl_cons]
    have hit := h it (List.mem_cons_self it rest)
    have hstep : groupStep acc it = acc := by
      simp [groupStep, hit]
    rw [hstep]
    exact ih (fun x hx => h x (List.mem_cons_of_mem it hx)) acc

/-- Claim C9: a group in which every message decoded to Absent (no payload,
no shape) produces no aggregated table, zero segments, and therefore no
upload call. -/
theorem absent_group_skipped (ford : Finset String → List String) (M : Nat)
    (table ts : String) (items : List ProcResult)
    (h : ∀ it ∈ items, it.decodedData = none ∧ it.decodedShape = none) :
    processGroup ford items = none ∧
    groupArtifacts ford M table ts items = [] := by
  have hnone : processGroup ford items = none := by
    unfold processGroup
    rw [foldl_groupStep_skip items (fun it hit => (h it hit).1) ([], [])]
    rfl
  refine ⟨hnone, ?_⟩
  unfold groupArtifacts
  rw [hnone]

/-- Two messages that decoded to Absent. -/
def absentItems : List ProcResult := [⟨none, none⟩, ⟨none, none⟩]

/-- Witness for C9: a concrete two-message all-Absent group yields no table
and no artifacts. -/
theorem absent_group_skipped_witness :
    (∀ it ∈ absentItems, it.decodedData = none ∧ it.decodedShape = none) ∧
    (processGroup (fun _ => []) absentItems = none ∧
      groupArtifacts (fun _ => []) 5 "t" "ts" absentItems = []) := by
  have hh : ∀ it ∈ absentItems, it.decodedData = none ∧ it.decodedShape = none := by
    intro it hit
    simp only [absentItems, List.mem_cons, List.not_mem_nil, or_false] at hit
    rcases hit with h | h <;> subst h <;> exact ⟨rfl, rfl⟩
  exact ⟨hh, absent_group_skipped (fun _ => []) 5 "t" "ts" absentItems hh⟩
